import Mathlib

/-!
Verification of the Armory block-data engine against its specification.

The definitions below are shallow embeddings of the C++ sources in
src/cppForSwig (BlockUtils.cpp, BlockDataViewer.cpp).  Machine integers are
modelled as Nat; C++ exceptions are modelled with Except / Option; mutation
is modelled by explicit state passing.  Components of the repository that are
not part of the provided sources (HistoryPager, BtcWallet internals,
ScrAddrFilter, the block deserializer) are either abstracted as function
parameters or modelled from the specification, as marked in doc comments.
-/

namespace Armory

/-! ## Common basics -/

/-- Byte strings (BinaryData in the C++ code) are lists of byte values. -/
abbrev BinaryData := List Nat

/-- Hashes are byte strings (32 bytes in practice). -/
abbrev Hash := List Nat

/-- BtcUtils::EmptyHash : 32 zero bytes. -/
def emptyHash : Hash := List.replicate 32 0

/-- 2^32 - 1, the C++ UINT32_MAX sentinel. -/
def U32MAX : Nat := 4294967295

/-- 2^8 - 1, the C++ UINT8_MAX sentinel. -/
def U8MAX : Nat := 255

/-- Association-list lookup, the embedding of map/pointer lookups. -/
def lookupAssoc {α β : Type} [DecidableEq α] : List (α × β) → α → Option β
  | [], _ => none
  | (k, v) :: rest, key => if k = key then some v else lookupAssoc rest key

/-! ## Reorg updater (BlockUtils.cpp, class ReorgUpdater)

`reassessAfterReorgThread` runs `undoBlocksFromDB`, then (unless told to only
undo) `updateBlockDupIDs` and `applyBlocksFromBranchPoint`.  Headers live in
the in-memory chain store keyed by hash; the walks follow the prev/next hash
pointers.  We record the database effects as a list of operations. -/

/-- A header of the in-memory chain store: its own hash, the previous and
next hashes, and the derived height and duplicate-id. -/
structure BlockHeaderRec where
  thisHash : Hash
  prevHash : Hash
  nextHash : Hash
  height : Nat
  dup : Nat
deriving DecidableEq, Repr

/-- The chain store: headers keyed by hash (Blockchain::getHeaderByHash). -/
abbrev Blockchain := List (Hash × BlockHeaderRec)

/-- The database-effecting calls made by the reorg updater. -/
inductive ReorgOp where
  | undoBlock (height dup : Nat)
  | markValid (height dup : Nat)
  | applyBlock (height dup : Nat)
deriving DecidableEq, Repr

/-- ReorgUpdater::undoBlocksFromDB: walk back from the old top until the
branch point (pointer comparison, embedded as hash equality), calling
undoBlockFromDB on each visited block, then stepping to the previous
header.  Fuel-based recursion; none models a walk that does not finish. -/
def undoBlocksFromDB (bc : Blockchain) (branch : BlockHeaderRec) :
    Nat → BlockHeaderRec → Option (List ReorgOp)
  | 0, _ => none
  | fuel + 1, cur =>
    if cur.thisHash = branch.thisHash then
      some []
    else
      match lookupAssoc bc cur.prevHash with
      | none => none
      | some nxt =>
        (undoBlocksFromDB bc branch fuel nxt).map
          (fun rest => ReorgOp.undoBlock cur.height cur.dup :: rest)

/-- The loop guard of the forward walks: the C++ code continues while
getNextHash() is neither the empty hash nor zero-sized. -/
def nextHashEnds (h : BlockHeaderRec) : Prop :=
  h.nextHash = emptyHash ∨ h.nextHash.length = 0

instance (h : BlockHeaderRec) : Decidable (nextHashEnds h) := by
  unfold nextHashEnds; infer_instance

/-- ReorgUpdater::updateBlockDupIDs: starting from the branch point, follow
next-hash pointers, calling markBlockHeaderValid(height, dup) for each
block strictly after the branch point. -/
def updateBlockDupIDs (bc : Blockchain) :
    Nat → BlockHeaderRec → Option (List ReorgOp)
  | 0, _ => none
  | fuel + 1, cur =>
    if nextHashEnds cur then
      some []
    else
      match lookupAssoc bc cur.nextHash with
      | none => none
      | some nxt =>
        (updateBlockDupIDs bc fuel nxt).map
          (fun rest => ReorgOp.markValid nxt.height nxt.dup :: rest)

/-- ReorgUpdater::applyBlocksFromBranchPoint: same walk as
updateBlockDupIDs, calling applyBlockToDB(height, dup) for each block
strictly after the branch point. -/
def applyBlocksFromBranchPoint (bc : Blockchain) :
    Nat → BlockHeaderRec → Option (List ReorgOp)
  | 0, _ => none
  | fuel + 1, cur =>
    if nextHashEnds cur then
      some []
    else
      match lookupAssoc bc cur.nextHash with
      | none => none
      | some nxt =>
        (applyBlocksFromBranchPoint bc fuel nxt).map
          (fun rest => ReorgOp.applyBlock nxt.height nxt.dup :: rest)

/-- ReorgUpdater::reassessAfterReorgThread: undo phase, then, unless
onlyUndo, the dup-id update phase followed by the apply phase. -/
def reassessAfterReorgThread (bc : Blockchain) (fuel : Nat)
    (oldTop branch : BlockHeaderRec) (onlyUndo : Bool) :
    Option (List ReorgOp) :=
  match undoBlocksFromDB bc branch fuel oldTop with
  | none => none
  | some undoOps =>
    if onlyUndo then
      some undoOps
    else
      match updateBlockDupIDs bc fuel branch,
            applyBlocksFromBranchPoint bc fuel branch with
      | some dupOps, some applyOps => some (undoOps ++ dupOps ++ applyOps)
      | _, _ => none

/-- The shape of the old-chain segment: the blocks visited walking back by
prev-hash from a start header until (exclusive) the branch point. -/
inductive PrevChain (bc : Blockchain) (branch : BlockHeaderRec) :
    BlockHeaderRec → List BlockHeaderRec → Prop where
  | nil (cur : BlockHeaderRec) (h : cur.thisHash = branch.thisHash) :
      PrevChain bc branch cur []
  | cons (cur nxt : BlockHeaderRec) (rest : List BlockHeaderRec)
      (hne : cur.thisHash ≠ branch.thisHash)
      (hlook : lookupAssoc bc cur.prevHash = some nxt)
      (htail : PrevChain bc branch nxt rest) :
      PrevChain bc branch cur (cur :: rest)

/-- The shape of the new-chain segment: the blocks reached following
next-hash pointers from a start header until the next hash runs out. -/
inductive NextChain (bc : Blockchain) :
    BlockHeaderRec → List BlockHeaderRec → Prop where
  | nil (cur : BlockHeaderRec) (h : nextHashEnds cur) :
      NextChain bc cur []
  | cons (cur nxt : BlockHeaderRec) (rest : List BlockHeaderRec)
      (h1 : ¬ nextHashEnds cur)
      (hlook : lookupAssoc bc cur.nextHash = some nxt)
      (htail : NextChain bc nxt rest) :
      NextChain bc cur (nxt :: rest)

theorem undoBlocksFromDB_of_prevChain {bc : Blockchain}
    {branch cur : BlockHeaderRec} {seg : List BlockHeaderRec}
    (hchain : PrevChain bc branch cur seg) :
    ∀ fuel : Nat, seg.length < fuel →
      undoBlocksFromDB bc branch fuel cur =
        some (seg.map fun h => ReorgOp.undoBlock h.height h.dup) := by
  induction hchain with
  | nil cur h =>
    intro fuel hfuel
    match fuel, hfuel with
    | fuel + 1, _ =>
      simp [undoBlocksFromDB, h]
  | cons cur nxt rest hne hlook htail ih =>
    intro fuel hfuel
    match fuel, hfuel with
    | fuel + 1, hfuel =>
      have hlen : rest.length < fuel := by
        simpa using Nat.lt_of_succ_lt_succ hfuel
      simp [undoBlocksFromDB, hne, hlook, ih fuel hlen]

theorem updateBlockDupIDs_of_nextChain {bc : Blockchain}
    {cur : BlockHeaderRec} {seg : List BlockHeaderRec}
    (hchain : NextChain bc cur seg) :
    ∀ fuel : Nat, seg.length < fuel →
      updateBlockDupIDs bc fuel cur =
        some (seg.map fun h => ReorgOp.markValid h.height h.dup) := by
  induction hchain with
  | nil cur h =>
    intro fuel hfuel
    match fuel, hfuel with
    | fuel + 1, _ =>
      simp [updateBlockDupIDs, h]
  | cons cur nxt rest h1 hlook htail ih =>
    intro fuel hfuel
    match fuel, hfuel with
    | fuel + 1, hfuel =>
      have hlen : rest.length < fuel := by
        simpa using Nat.lt_of_succ_lt_succ hfuel
      simp [updateBlockDupIDs, h1, hlook, ih fuel hlen]

theorem applyBlocksFromBranchPoint_of_nextChain {bc : Blockchain}
    {cur : BlockHeaderRec} {seg : List BlockHeaderRec}
    (hchain : NextChain bc cur seg) :
    ∀ fuel : Nat, seg.length < fuel →
      applyBlocksFromBranchPoint bc fuel cur =
        some (seg.map fun h => ReorgOp.applyBlock h.height h.dup) := by
  induction hchain with
  | nil cur h =>
    intro fuel hfuel
    match fuel, hfuel with
    | fuel + 1, _ =>
      simp [applyBlocksFromBranchPoint, h]
  | cons cur nxt rest h1 hlook htail ih =>
    intro fuel hfuel
    match fuel, hfuel with
    | fuel + 1, hfuel =>
      have hlen : rest.length < fuel := by
        simpa using Nat.lt_of_succ_lt_succ hfuel
      simp [applyBlocksFromBranchPoint, h1, hlook, ih fuel hlen]

/-- C1: for every reorganization state handed to the reorg updater (in its
default mode, onlyUndo = false), the reorg routine performs exactly three
phases in order: undoBlockFromDB for each block walking back from the old
top until (exclusive) the branch point, then the height-to-duplicate-id
update for every block strictly after the branch point along the new chain,
then applyBlockToDB for each block from the branch point (exclusive) up to
the new top. -/
theorem reorg_three_phases (bc : Blockchain) (oldTop branch : BlockHeaderRec)
    (oldSeg newSeg : List BlockHeaderRec) (fuel : Nat)
    (hold : PrevChain bc branch oldTop oldSeg)
    (hnew : NextChain bc branch newSeg)
    (hfuel1 : oldSeg.length < fuel) (hfuel2 : newSeg.length < fuel) :
    reassessAfterReorgThread bc fuel oldTop branch false =
      some ((oldSeg.map fun h => ReorgOp.undoBlock h.height h.dup) ++
            (newSeg.map fun h => ReorgOp.markValid h.height h.dup) ++
            (newSeg.map fun h => ReorgOp.applyBlock h.height h.dup)) := by
  unfold reassessAfterReorgThread
  rw [undoBlocksFromDB_of_prevChain hold fuel hfuel1,
      updateBlockDupIDs_of_nextChain hnew fuel hfuel2,
      applyBlocksFromBranchPoint_of_nextChain hnew fuel hfuel2]
  simp

/-- A concrete branch-point header for the reorg witness. -/
def branchW : BlockHeaderRec :=
  { thisHash := [1], prevHash := [99], nextHash := [3], height := 10, dup := 0 }

/-- A concrete old-top header (one block above the branch point). -/
def oldTopW : BlockHeaderRec :=
  { thisHash := [2], prevHash := [1], nextHash := emptyHash,
    height := 11, dup := 1 }

/-- A concrete new-chain header (one block above the branch point). -/
def newBlkW : BlockHeaderRec :=
  { thisHash := [3], prevHash := [1], nextHash := emptyHash,
    height := 11, dup := 0 }

/-- A concrete chain store holding the three witness headers. -/
def bcW : Blockchain := [([1], branchW), ([2], oldTopW), ([3], newBlkW)]

theorem reorg_three_phases_witness :
    reassessAfterReorgThread bcW 5 oldTopW branchW false =
      some [ReorgOp.undoBlock 11 1, ReorgOp.markValid 11 0,
            ReorgOp.applyBlock 11 0] :=
  reorg_three_phases bcW oldTopW branchW [oldTopW] [newBlkW] 5
    (PrevChain.cons oldTopW branchW [] (by decide) (by decide)
      (PrevChain.nil branchW (by decide)))
    (NextChain.cons branchW newBlkW [] (by decide) (by decide)
      (NextChain.nil newBlkW (by decide)))
    (by decide) (by decide)

/-! ## Block-file reader (BlockUtils.cpp)

`readRawBlocksInFile(prog, fnum, foffset)` frames blocks in one block file:
magic(4), payload-size(4 LE), payload.  On a deserialization failure it
scans forward for the next magic bytes with `scanForMagicBytes`; it gives
up on the file once `failedAttempts` reaches 4 (the counter is never reset
on success).  The streaming buffer is embedded as the whole file held as a
byte list; logging, progress reporting and the periodic transaction commit
are omitted as pure observers.  The block deserializer (addRawBlockToDB and
below) is abstracted as a Bool-valued oracle on the payload bytes. -/

/-- A window of a byte list: n bytes starting at position p. -/
def slice (file : List Nat) (p n : Nat) : List Nat := (file.drop p).take n

/-- Little-endian 32-bit decode of four bytes (get_uint32_t). -/
def le32 (bytes : List Nat) : Nat :=
  match bytes with
  | [b0, b1, b2, b3] => b0 + 256 * b1 + 65536 * b2 + 16777216 * b3
  | _ => 0

/-- scanForMagicBytes: read four bytes; on mismatch rewind three (net:
advance one byte) and retry, counting the bytes skipped; on a match rewind
four and report success.  none models running out of data. -/
def scanForMagicBytes (magic : List Nat) : List Nat → Nat → Option Nat
  | [], _ => none
  | b :: rest, skipped =>
    if (b :: rest).length < 4 then none
    else if (b :: rest).take 4 = magic then some skipped
    else scanForMagicBytes magic rest (skipped + 1)

/-- The events of one readRawBlocksInFile run, in order. -/
inductive ReadEvent where
  | blockAdded (pos size : Nat)
  | deserFail (pos : Nat)
deriving DecidableEq, Repr

/-- Why a readRawBlocksInFile run stopped with its file. -/
inductive StopReason where
  | endOfData
  | badMagic
  | gaveUpCorrupt
  | noMagicFound
  | pastLastHeader
deriving DecidableEq, Repr

/-- BlockDataManager_LevelDB::readRawBlocksInFile, the framing loop over one
file.  deserOk is the oracle for whether addRawBlockToDB succeeds on the
payload; isLast and endByte embed the numBlkFiles_/endOfLastBlockByte_
check.  Arguments after endByte: fuel, read position, failedAttempts. -/
def readRawBlocksInFile (deserOk : List Nat → Bool) (magic file : List Nat)
    (isLast : Bool) (endByte : Nat) :
    Nat → Nat → Nat → Option (List ReadEvent × StopReason)
  | 0, _, _ => none
  | fuel + 1, p, failed =>
    if file.length < p + 8 then some ([], StopReason.endOfData)
    else if slice file p 4 = magic then
      let size := le32 (slice file (p + 4) 4)
      if file.length < p + 8 + size then some ([], StopReason.endOfData)
      else if deserOk (slice file (p + 8) size) then
        if isLast ∧ endByte ≤ p + 8 + size then
          some ([ReadEvent.blockAdded p size], StopReason.pastLastHeader)
        else
          (readRawBlocksInFile deserOk magic file isLast endByte
              fuel (p + 8 + size) failed).map
            (fun er => (ReadEvent.blockAdded p size :: er.1, er.2))
      else
        if 4 ≤ failed + 1 then
          some ([ReadEvent.deserFail p], StopReason.gaveUpCorrupt)
        else
          match scanForMagicBytes magic (file.drop (p + 8)) 0 with
          | none => some ([ReadEvent.deserFail p], StopReason.noMagicFound)
          | some k =>
            (readRawBlocksInFile deserOk magic file isLast endByte
                fuel (p + 8 + k) (failed + 1)).map
              (fun er => (ReadEvent.deserFail p :: er.1, er.2))
    else some ([], StopReason.badMagic)

/-- Modelled from the spec: the reader as the specification words describe
it, giving up only after four CONSECUTIVE frame failures, i.e. with the
failure counter reset to zero on every successfully framed block.  Used
solely to compare the source behaviour against the claimed one. -/
def readRawBlocksInFileConsecSpec (deserOk : List Nat → Bool)
    (magic file : List Nat) (isLast : Bool) (endByte : Nat) :
    Nat → Nat → Nat → Option (List ReadEvent × StopReason)
  | 0, _, _ => none
  | fuel + 1, p, failed =>
    if file.length < p + 8 then some ([], StopReason.endOfData)
    else if slice file p 4 = magic then
      let size := le32 (slice file (p + 4) 4)
      if file.length < p + 8 + size then some ([], StopReason.endOfData)
      else if deserOk (slice file (p + 8) size) then
        if isLast ∧ endByte ≤ p + 8 + size then
          some ([ReadEvent.blockAdded p size], StopReason.pastLastHeader)
        else
          (readRawBlocksInFileConsecSpec deserOk magic file isLast endByte
              fuel (p + 8 + size) 0).map
            (fun er => (ReadEvent.blockAdded p size :: er.1, er.2))
      else
        if 4 ≤ failed + 1 then
          some ([ReadEvent.deserFail p], StopReason.gaveUpCorrupt)
        else
          match scanForMagicBytes magic (file.drop (p + 8)) 0 with
          | none => some ([ReadEvent.deserFail p], StopReason.noMagicFound)
          | some k =>
            (readRawBlocksInFileConsecSpec deserOk magic file isLast endByte
                fuel (p + 8 + k) (failed + 1)).map
              (fun er => (ReadEvent.deserFail p :: er.1, er.2))
    else some ([], StopReason.badMagic)

theorem scanForMagicBytes_found (magic : List Nat) :
    ∀ (bytes : List Nat) (s k : Nat),
      scanForMagicBytes magic bytes s = some k →
      s ≤ k ∧ (bytes.drop (k - s)).take 4 = magic ∧
        ∀ j < k - s, (bytes.drop j).take 4 ≠ magic := by
  intro bytes
  induction bytes with
  | nil =>
    intro s k h
    simp [scanForMagicBytes] at h
  | cons b rest ih =>
    intro s k h
    rw [scanForMagicBytes] at h
    by_cases hlen : (b :: rest).length < 4
    · rw [if_pos hlen] at h
      exact absurd h (by simp)
    · rw [if_neg hlen] at h
      by_cases hmag : (b :: rest).take 4 = magic
      · rw [if_pos hmag] at h
        injection h with h
        subst h
        refine ⟨Nat.le_refl s, ?_, ?_⟩
        · simpa using hmag
        · intro j hj
          omega
      · rw [if_neg hmag] at h
        obtain ⟨hsk, hmatch, hleast⟩ := ih (s + 1) k h
        have hk1 : s < k := hsk
        refine ⟨Nat.le_of_lt hk1, ?_, ?_⟩
        · have : k - s = (k - (s + 1)) + 1 := by omega
          rw [this, List.drop_succ_cons]
          have : k - (s + 1) = k - s - 1 := by omega
          simpa using hmatch
        · intro j hj
          match j with
          | 0 => simpa using hmag
          | j + 1 =>
            rw [List.drop_succ_cons]
            exact hleast j (by omega)

/-- The magic-byte prefix used in the reader witnesses. -/
def magicW : List Nat := [9, 9, 9, 9]

/-- Witness deserialization oracle: a payload parses iff it is [1]. -/
def deserOkW (payload : List Nat) : Bool := payload = [1]

/-- One bad 9-byte frame: magic, size 1 LE, payload [0]. -/
def badFrameW : List Nat := [9, 9, 9, 9, 1, 0, 0, 0, 0]

/-- One good 9-byte frame: magic, size 1 LE, payload [1]. -/
def goodFrameW : List Nat := [9, 9, 9, 9, 1, 0, 0, 0, 1]

/-- A block file with alternating bad and good frames: four failures occur
but never two in a row. -/
def fileW : List Nat :=
  badFrameW ++ goodFrameW ++ badFrameW ++ goodFrameW ++
  badFrameW ++ goodFrameW ++ badFrameW ++ goodFrameW

/-- C3 counterexample: on a file whose frame failures are never
consecutive, the source reader still gives up after its fourth cumulative
failure, leaving a later well-formed block unread, while the
consecutive-failure reading of the claim would process the whole file.
The failure counter is cumulative per file, not consecutive. -/
theorem readRawBlocks_not_consecutive_counterexample :
    readRawBlocksInFile deserOkW magicW fileW false 0 20 0 0 =
      some ([ReadEvent.deserFail 0, ReadEvent.blockAdded 9 1,
             ReadEvent.deserFail 18, ReadEvent.blockAdded 27 1,
             ReadEvent.deserFail 36, ReadEvent.blockAdded 45 1,
             ReadEvent.deserFail 54], StopReason.gaveUpCorrupt) ∧
    readRawBlocksInFileConsecSpec deserOkW magicW fileW false 0 20 0 0 =
      some ([ReadEvent.deserFail 0, ReadEvent.blockAdded 9 1,
             ReadEvent.deserFail 18, ReadEvent.blockAdded 27 1,
             ReadEvent.deserFail 36, ReadEvent.blockAdded 45 1,
             ReadEvent.deserFail 54, ReadEvent.blockAdded 63 1],
            StopReason.endOfData) := by
  constructor <;> rfl

/-- C3 (amended): after any block deserialization failure, if fewer than
four failures have accumulated in the file, the reader scans forward
byte-by-byte and resumes framing at the nearest following magic bytes
(provably the least such offset); once the CUMULATIVE count of failures in
the file reaches four, it stops processing the file at once. -/
theorem readRawBlocks_failure_behavior (deserOk : List Nat → Bool)
    (magic file : List Nat) (isLast : Bool) (endByte fuel p failed : Nat)
    (hrem : p + 8 ≤ file.length)
    (hmagic : slice file p 4 = magic)
    (hsize : p + 8 + le32 (slice file (p + 4) 4) ≤ file.length)
    (hbad : deserOk (slice file (p + 8) (le32 (slice file (p + 4) 4)))
            = false) :
    (3 ≤ failed →
      readRawBlocksInFile deserOk magic file isLast endByte
          (fuel + 1) p failed =
        some ([ReadEvent.deserFail p], StopReason.gaveUpCorrupt)) ∧
    (failed < 3 → ∀ k,
      scanForMagicBytes magic (file.drop (p + 8)) 0 = some k →
      readRawBlocksInFile deserOk magic file isLast endByte
          (fuel + 1) p failed =
        (readRawBlocksInFile deserOk magic file isLast endByte
            fuel (p + 8 + k) (failed + 1)).map
          (fun er => (ReadEvent.deserFail p :: er.1, er.2)) ∧
      ((file.drop (p + 8)).drop k).take 4 = magic ∧
      ∀ j < k, ((file.drop (p + 8)).drop j).take 4 ≠ magic) := by
  have h1 : ¬ file.length < p + 8 := by omega
  have h2 : ¬ file.length < p + 8 + le32 (slice file (p + 4) 4) := by omega
  constructor
  · intro hge
    have h4 : 4 ≤ failed + 1 := by omega
    rw [readRawBlocksInFile]
    simp only [h1, if_false, hmagic, if_true, h2, hbad, if_true, if_false,
      Bool.false_eq_true, h4, ite_true, ite_false]
  · intro hlt k hscan
    have h4 : ¬ 4 ≤ failed + 1 := by omega
    obtain ⟨-, hmatch, hleast⟩ :=
      scanForMagicBytes_found magic (file.drop (p + 8)) 0 k hscan
    refine ⟨?_, by simpa using hmatch, by simpa using hleast⟩
    rw [readRawBlocksInFile]
    simp only [h1, if_false, hmagic, if_true, h2, hbad, Bool.false_eq_true,
      h4, ite_false, hscan]

theorem readRawBlocks_failure_behavior_witness :
    (readRawBlocksInFile deserOkW magicW fileW false 0 3 54 3 =
      some ([ReadEvent.deserFail 54], StopReason.gaveUpCorrupt)) ∧
    (readRawBlocksInFile deserOkW magicW fileW false 0 19 0 0 =
      (readRawBlocksInFile deserOkW magicW fileW false 0 18 9 1).map
        (fun er => (ReadEvent.deserFail 0 :: er.1, er.2)) ∧
     ((fileW.drop 8).drop 1).take 4 = magicW ∧
     ∀ j < 1, ((fileW.drop 8).drop j).take 4 ≠ magicW) :=
  ⟨(readRawBlocks_failure_behavior deserOkW magicW fileW false 0 2 54 3
      (by decide) (by decide) (by decide) (by decide)).1 (by decide),
   (readRawBlocks_failure_behavior deserOkW magicW fileW false 0 18 0 0
      (by decide) (by decide) (by decide) (by decide)).2 (by decide) 1
      (by decide)⟩

/-! ## addRawBlockToDB (BlockUtils.cpp)

`addRawBlockToDB(brr, updateDupID)` deserializes a full raw block and
writes the StoredHeader row.  The deserializer (unserializeFullBlock,
StoredBlockObj.cpp) is external and is abstracted as a parse oracle; its
three relevant outcomes are full success, failure with a valid header, and
failure without one.  The chain store lookup getHeaderByHash is abstracted
as a partial map from hash to (height, dup, isMainBranch).  The updateDupID
argument only affects the external height-to-dup table and is not tracked
in the stored row. -/

/-- Outcome of StoredHeader::unserializeFullBlock on the block bytes. -/
inductive ParseOutcome where
  | parsed (hash : Hash)
  | failedWithHeader (hash : Hash)
  | failedNoHeader
deriving DecidableEq, Repr

/-- The data the chain store holds for a header: height, duplicate-id and
the main-branch flag. -/
structure ChainHeaderInfo where
  height : Nat
  dup : Nat
  isMainBranch : Bool
deriving DecidableEq, Repr

/-- A StoredHeader row as written by putStoredHeader. -/
structure StoredHeaderRow where
  thisHash : Hash
  height : Nat
  dup : Nat
  isMainBranch : Bool
  blockAppliedToDB : Bool
deriving DecidableEq, Repr

/-- The database state addRawBlockToDB mutates: the stored-header rows and
the missing-blocks list. -/
structure BDMStore where
  headersDB : List StoredHeaderRow
  missingBlockHashes : List Hash
deriving DecidableEq, Repr

/-- The reader-positioning prologue of addRawBlockToDB: skip magic bytes
and block size when present, else rewind to the start. -/
def blockBody (magic raw : List Nat) : List Nat :=
  if raw.take 4 = magic then raw.drop 8 else raw

/-- BlockDataManager_LevelDB::addRawBlockToDB.  Returns the store as left
by the call together with ok or the thrown error; C++ side effects persist
across a throw, so the store is returned in every case. -/
def addRawBlockToDB (parse : List Nat → ParseOutcome)
    (bc : Hash → Option ChainHeaderInfo) (magic : List Nat)
    (st : BDMStore) (raw : List Nat) :
    BDMStore × Except String Unit :=
  match parse (blockBody magic raw) with
  | ParseOutcome.parsed hash =>
    match bc hash with
    | none => (st, Except.error "header hash not found in chain store")
    | some info =>
      if info.height = U32MAX ∨ info.dup = U8MAX then
        (st, Except.error "cannot add raw block to DB without hgt and dup")
      else
        ({ st with headersDB := st.headersDB ++
             [{ thisHash := hash, height := info.height, dup := info.dup,
                isMainBranch := info.isMainBranch,
                blockAppliedToDB := false }] },
         Except.ok ())
  | ParseOutcome.failedWithHeader hash =>
    match bc hash with
    | none => (st, Except.error "header hash not found in chain store")
    | some info =>
      if info.height = U32MAX ∨ info.dup = U8MAX then
        (st, Except.error "error parsing block, no hgt and dup")
      else
        ({ headersDB := st.headersDB ++
             [{ thisHash := hash, height := info.height, dup := info.dup,
                isMainBranch := info.isMainBranch,
                blockAppliedToDB := false }],
           missingBlockHashes := st.missingBlockHashes ++ [hash] },
         Except.error "error parsing block, block header valid")
  | ParseOutcome.failedNoHeader =>
    (st, Except.error "error parsing block and block header invalid")

/-- C4: when the tx data of a raw block fails to deserialize but its header
is valid with a proper height and duplicate-id, addRawBlockToDB still
stores the header row (blockAppliedToDB false), appends the block hash to
the missing-blocks list, and rethrows; when the header itself is invalid,
the store is untouched and no hash is recorded. -/
theorem addRawBlockToDB_missing_tx_data (parse : List Nat → ParseOutcome)
    (bc : Hash → Option ChainHeaderInfo) (magic : List Nat)
    (st : BDMStore) (raw : List Nat) :
    (∀ hash info, parse (blockBody magic raw) =
        ParseOutcome.failedWithHeader hash →
      bc hash = some info →
      info.height ≠ U32MAX → info.dup ≠ U8MAX →
      addRawBlockToDB parse bc magic st raw =
        ({ headersDB := st.headersDB ++
             [{ thisHash := hash, height := info.height, dup := info.dup,
                isMainBranch := info.isMainBranch,
                blockAppliedToDB := false }],
           missingBlockHashes := st.missingBlockHashes ++ [hash] },
         Except.error "error parsing block, block header valid")) ∧
    (parse (blockBody magic raw) = ParseOutcome.failedNoHeader →
      addRawBlockToDB parse bc magic st raw =
        (st, Except.error "error parsing block and block header invalid")) := by
  constructor
  · intro hash info hparse hbc hh hd
    unfold addRawBlockToDB
    have hnot : ¬ (info.height = U32MAX ∨ info.dup = U8MAX) := by
      intro hor
      cases hor with
      | inl h => exact hh h
      | inr h => exact hd h
    simp only [hparse, hbc, hnot, if_false, ite_false]
  · intro hparse
    unfold addRawBlockToDB
    simp only [hparse]

/-- A concrete parse oracle for the addRawBlockToDB witness: byte 0 parses
fully, byte 1 fails with a valid header, anything else has no header. -/
def parseW (body : List Nat) : ParseOutcome :=
  match body with
  | [0] => ParseOutcome.parsed [7]
  | [1] => ParseOutcome.failedWithHeader [7]
  | _ => ParseOutcome.failedNoHeader

/-- A concrete chain-store lookup for the witness. -/
def bcLookupW (hash : Hash) : Option ChainHeaderInfo :=
  if hash = [7] then
    some { height := 42, dup := 1, isMainBranch := true }
  else
    none

theorem addRawBlockToDB_missing_tx_data_witness :
    (addRawBlockToDB parseW bcLookupW magicW
        { headersDB := [], missingBlockHashes := [] } [1] =
      ({ headersDB := [{ thisHash := [7], height := 42, dup := 1,
                         isMainBranch := true, blockAppliedToDB := false }],
         missingBlockHashes := [[7]] },
       Except.error "error parsing block, block header valid")) ∧
    (addRawBlockToDB parseW bcLookupW magicW
        { headersDB := [], missingBlockHashes := [] } [2] =
      ({ headersDB := [], missingBlockHashes := [] },
       Except.error "error parsing block and block header invalid")) :=
  ⟨(addRawBlockToDB_missing_tx_data parseW bcLookupW magicW
      { headersDB := [], missingBlockHashes := [] } [1]).1 [7]
      { height := 42, dup := 1, isMainBranch := true }
      (by decide) (by decide) (by decide) (by decide),
   (addRawBlockToDB_missing_tx_data parseW bcLookupW magicW
      { headersDB := [], missingBlockHashes := [] } [2]).2 (by decide)⟩

/-! ## BlockDataViewer and WalletGroup (BlockDataViewer.cpp)

The viewer holds wallet groups and fans notifications out to them.  The
parts of the repository outside the provided sources are handled as
follows: the HistoryPager (HistoryPager.cpp) is modelled from the
specification; BtcWallet internals (mapPages, scanWallet, the per-wallet
ledger builders) are abstracted as data and function fields of the wallet
record; the ScrAddrFilter registration entry point is abstracted as a
function parameter. -/

/-- Ledger entries are abstracted by a numeric identifier; the group-level
sort orders them by this number (LedgerEntry ordering). -/
abbrev LedgerEntryM := Nat

/-- std::map::insert semantics: an insertion never overwrites an existing
key. -/
def mapInsert {α β : Type} [DecidableEq α] (m : List (α × β)) (kv : α × β) :
    List (α × β) :=
  if ∃ p ∈ m, p.1 = kv.1 then m else m ++ [kv]

/-- Range insertion m.insert(l.begin(), l.end()). -/
def mapInsertList {α β : Type} [DecidableEq α] (m : List (α × β))
    (l : List (α × β)) : List (α × β) :=
  l.foldl mapInsert m

/-- Set insertion of a range of keys (validZcSet_.insert). -/
def setInsertList (s l : List BinaryData) : List BinaryData :=
  l.foldl (fun acc k => if k ∈ acc then acc else acc ++ [k]) s

/-- The BDV notification kinds (BDV_action_enum). -/
inductive BDVAction where
  | init
  | newBlock
  | zc
  | refresh
deriving DecidableEq, Repr

/-- The saStruct_ member of ScanWalletStruct. -/
structure SaScanStruct where
  zcMap : List (BinaryData × Nat) := []
  newZcKeys : List BinaryData := []
  invalidatedZcKeys : List BinaryData := []
  minedTxioKeys : List (BinaryData × BinaryData) := []
  zcLedgers : List (BinaryData × LedgerEntryM) := []
deriving DecidableEq, Repr

/-- ScanWalletStruct, as handed to each group scan. -/
structure ScanWalletStruct where
  prevTopBlockHeight : Nat
  startBlock : Nat
  endBlock : Nat
  action : BDVAction
  reorg : Bool
  saStruct : SaScanStruct
deriving DecidableEq, Repr

/-- A registered wallet.  uiFilter_ and the SSH summary come from the
sources; isPagedFlag is the value BtcWallet::isPaged() reports;
ledgersForRange abstracts getTxioForRange followed by
updateWalletLedgersFromTxio; scanZcLedgers abstracts the zero-conf ledger
entries BtcWallet::scanWallet writes into saStruct_.zcLedgers_;
validZcKeys abstracts the post-scan validZcKeys_ set (BtcWallet.cpp is
external code). -/
structure BtcWalletM where
  uiFilter : Bool
  isPagedFlag : Bool
  sshSummary : List (Nat × Nat)
  scrAddrs : List BinaryData
  ledgersForRange : Nat → Nat → List (BinaryData × LedgerEntryM)
  scanZcLedgers : ScanWalletStruct → Nat → List (BinaryData × LedgerEntryM)
  validZcKeys : List BinaryData

/-- A fresh BtcWallet as constructed by WalletGroup::registerWallet. -/
def newBtcWallet : BtcWalletM :=
  { uiFilter := true, isPagedFlag := false, sshSummary := [],
    scrAddrs := [], ledgersForRange := fun _ _ => [],
    scanZcLedgers := fun _ _ => [], validZcKeys := [] }

/-- Modelled from the spec: BtcWallet::mapPages (BtcWallet.cpp is not in
src/) builds the wallet page map; isPaged() afterwards reports true. -/
def mapPages (w : BtcWalletM) : BtcWalletM := { w with isPagedFlag := true }

/-- Modelled from the spec: one page of the HistoryPager
(HistoryPager.cpp is not in src/): a block range, the cached page ledger
and the update id the cache was built under (U32MAX when invalid). -/
structure PageM where
  bottom : Nat
  top : Nat
  pageLedgers : List (BinaryData × LedgerEntryM)
  updateID : Nat
deriving DecidableEq, Repr

/-- Modelled from the spec: the HistoryPager: pages, the current page and
the summary the pages were built from. -/
structure HistoryPagerM where
  pages : List PageM
  currentPage : Nat
  cachedSummary : Option (List (Nat × Nat))
deriving DecidableEq, Repr

def getPageCount (h : HistoryPagerM) : Nat := h.pages.length

def getPageBottom (h : HistoryPagerM) (i : Nat) : Nat :=
  match h.pages.get? i with
  | some p => p.bottom
  | none => 0

def setCurrentPage (h : HistoryPagerM) (i : Nat) : HistoryPagerM :=
  { h with currentPage := i }

/-- The page-aggregation target (approx tx events per page). -/
def txnPerPage : Nat := 100

/-- Modelled from the spec: build pages from an ascending
height-to-tx-count summary, accumulating bottom-up until each page holds
about txnPerPage tx events; a page bottom is the lowest height aggregated
into it and the newest page extends upward without bound. -/
def buildPagesAux : List (Nat × Nat) → Option Nat → Nat → List PageM
  | [], none, _ => []
  | [], some b, _ => [{ bottom := b, top := U32MAX, pageLedgers := [],
                        updateID := U32MAX }]
  | (h, c) :: rest, bot, count =>
    let b := bot.getD h
    let count2 := count + c
    if txnPerPage ≤ count2 then
      { bottom := b, top := h, pageLedgers := [], updateID := U32MAX } ::
        buildPagesAux rest none 0
    else
      buildPagesAux rest (some b) count2

/-- Modelled from the spec: rebuild all pages from a summary. -/
def buildPages (summary : List (Nat × Nat)) : List PageM :=
  buildPagesAux summary none 0

/-- Modelled from the spec: HistoryPager::getPageLedgerMap returns the
cached page ledger when the caller's update id matches the one the cache
was built under (and is not the invalid id); otherwise it rebuilds the
page ledger with the supplied builder and caches it under the caller's
update id. -/
def getPageLedgerMap
    (buildLedgers : Nat → Nat → List (BinaryData × LedgerEntryM))
    (pageId updateID : Nat) (pager : HistoryPagerM) :
    List (BinaryData × LedgerEntryM) × HistoryPagerM :=
  match pager.pages.get? pageId with
  | none => ([], pager)
  | some page =>
    if page.updateID = updateID ∧ updateID ≠ U32MAX then
      (page.pageLedgers, pager)
    else
      let newLedgers := buildLedgers page.bottom page.top
      let page2 :=
        { page with pageLedgers := newLedgers, updateID := updateID }
      (newLedgers, { pager with pages := pager.pages.set pageId page2 })

/-- The group-level history ordering. -/
inductive HistoryOrdering where
  | ascending
  | descending
deriving DecidableEq, Repr

/-- A wallet group: the wallets (keyed by id, in map order), the shared
pager, the configured order, the ui-filter set recorded by the previous
getHistoryPage call, and the valid zero-conf key set. -/
structure WalletGroupM where
  wallets : List (BinaryData × BtcWalletM)
  hist : HistoryPagerM
  order : HistoryOrdering
  wltFilterSet : List BinaryData
  validZcSet : List BinaryData

/-- Sorted-map point-wise addition used for fullSummary[height] += count. -/
def addToSummary : List (Nat × Nat) → Nat → Nat → List (Nat × Nat)
  | [], h, c => [(h, c)]
  | (h0, c0) :: rest, h, c =>
    if h < h0 then (h, c) :: (h0, c0) :: rest
    else if h = h0 then (h0, c0 + c) :: rest
    else (h0, c0) :: addToSummary rest h c

def mergeSummary (acc s : List (Nat × Nat)) : List (Nat × Nat) :=
  s.foldl (fun m hc => addToSummary m hc.1 hc.2) acc

/-- The first loop of WalletGroup::computeWalletsSSHSummary: optionally
force-map each wallet, then record whether any wallet reports isPaged()
(clearing the isAlreadyPaged flag) and map the ones that do not. -/
def sshSummaryLoop1 (forcePaging : Bool) :
    List (BinaryData × BtcWalletM) →
    List (BinaryData × BtcWalletM) × Bool
  | [] => ([], true)
  | (kid, w) :: rest =>
    let w1 := if forcePaging then mapPages w else w
    let (rest2, restFlag) := sshSummaryLoop1 forcePaging rest
    if w1.isPagedFlag then ((kid, w1) :: rest2, false)
    else ((kid, mapPages w1) :: rest2, restFlag)

/-- WalletGroup::computeWalletsSSHSummary: none models the
AlreadyPagedException; the group is returned in every case because the
mapping side effects persist. -/
def computeWalletsSSHSummary (g : WalletGroupM)
    (forcePaging pageAnyway : Bool) :
    Option (List (Nat × Nat)) × WalletGroupM :=
  let (ws2, isAlreadyPaged) := sshSummaryLoop1 forcePaging g.wallets
  let g2 := { g with wallets := ws2 }
  if isAlreadyPaged && !forcePaging && !pageAnyway then (none, g2)
  else
    (some (ws2.foldl
      (fun acc kw =>
        if kw.2.uiFilter then mergeSummary acc kw.2.sshSummary else acc)
      []), g2)

/-- WalletGroup::pageHistory = hist_.mapHistory(computeSummary); the pager
side (modelled from the spec) reports false when the summary computation
short-circuits or the summary is unchanged, and otherwise rebuilds the
pages and reports true. -/
def pageHistory (g : WalletGroupM) (forcePaging pageAnyway : Bool) :
    Bool × WalletGroupM :=
  match computeWalletsSSHSummary g forcePaging pageAnyway with
  | (none, g2) => (false, g2)
  | (some summary, g2) =>
    if g2.hist.cachedSummary = some summary then (false, g2)
    else
      (true, { g2 with hist :=
        { pages := buildPages summary, currentPage := 0,
          cachedSummary := some summary } })

/-- The wallets currently passing the ui filter (localWalletMap). -/
def uiFilterWallets (g : WalletGroupM) : List (BinaryData × BtcWalletM) :=
  g.wallets.filter (fun kw => kw.2.uiFilter)

/-- The ids of the wallets passing the ui filter (localFilterSet). -/
def uiFilterIds (g : WalletGroupM) : List BinaryData :=
  (uiFilterWallets g).map Prod.fst

/-- The page-ledger builder closure of WalletGroup::getHistoryPage: each
ui-filtered wallet contributes its ledger entries for the range, merged
with map-insert semantics. -/
def groupBuildLedgers (g : WalletGroupM) (startBlock endBlock : Nat) :
    List (BinaryData × LedgerEntryM) :=
  (uiFilterWallets g).foldl
    (fun acc kw => mapInsertList acc (kw.2.ledgersForRange startBlock endBlock))
    []

/-- The page-id remap of WalletGroup::getHistoryPage for ascending order. -/
def internalPageId (g : WalletGroupM) (pageId : Nat) : Nat :=
  if g.order = HistoryOrdering.ascending then
    getPageCount g.hist - pageId - 1
  else pageId

def insertSorted (le : Nat → Nat → Bool) (x : Nat) : List Nat → List Nat
  | [] => [x]
  | y :: rest => if le x y then x :: y :: rest else y :: insertSorted le x rest

def sortLedgers (le : Nat → Nat → Bool) : List Nat → List Nat
  | [] => []
  | x :: rest => insertSorted le x (sortLedgers le rest)

/-- The final sort of WalletGroup::getHistoryPage by the group order. -/
def orderSort (g : WalletGroupM) (l : List LedgerEntryM) : List LedgerEntryM :=
  if g.order = HistoryOrdering.ascending then
    sortLedgers (fun a b => decide (a ≤ b)) l
  else
    sortLedgers (fun a b => decide (b ≤ a)) l

/-- WalletGroup::getHistoryPage: range check, page-id remap, optional
rebuild, updateID invalidation on rebuild or ui-filter change, page-ledger
fetch through the pager cache, and the final sort. -/
def getHistoryPage (g : WalletGroupM) (pageId updateID : Nat)
    (rebuildLedger remapWallets : Bool) :
    Except String (List LedgerEntryM × WalletGroupM) :=
  if getPageCount g.hist ≤ pageId then
    Except.error "pageId out of range"
  else
    let pageId2 := internalPageId g pageId
    let g2 := if rebuildLedger || remapWallets then
        (pageHistory g remapWallets false).2
      else g
    let g3 := { g2 with hist := setCurrentPage g2.hist pageId2 }
    let updateID2 := if rebuildLedger || remapWallets then U32MAX else updateID
    let updateID3 := if uiFilterIds g3 ≠ g3.wltFilterSet then U32MAX
      else updateID2
    let g4 := if uiFilterIds g3 ≠ g3.wltFilterSet then
        { g3 with wltFilterSet := uiFilterIds g3 }
      else g3
    let (leMap, hist2) :=
      getPageLedgerMap (groupBuildLedgers g4) pageId2 updateID3 g4.hist
    Except.ok (orderSort g (leMap.map Prod.snd), { g4 with hist := hist2 })

/-- WalletGroup::scanWallets: scan each wallet in order, accumulating the
zero-conf ledger entries the wallets insert into saStruct_.zcLedgers_ and
unioning the wallets' valid zero-conf keys into validZcSet_.  Wallet
internal mutation is external (BtcWallet.cpp) and not tracked. -/
def groupScanWallets (g : WalletGroupM) (sd : ScanWalletStruct)
    (uid : Nat) : WalletGroupM × List (BinaryData × LedgerEntryM) :=
  g.wallets.foldl
    (fun acc kw =>
      ({ acc.1 with
           validZcSet := (setInsertList acc.1.validZcSet kw.2.validZcKeys) },
       mapInsertList acc.2 (kw.2.scanZcLedgers sd uid)))
    (g, sd.saStruct.zcLedgers)

/-- Blockchain::ReorganizationState, reduced to the header heights the
viewer reads off it. -/
structure ReorganizationStateM where
  hasNewTop : Bool
  prevTopStillValid : Bool
  prevTopHeight : Nat
  newTopHeight : Nat
  reorgBranchPointHeight : Nat
deriving DecidableEq, Repr

/-- A zero-conf purge packet: invalidated keys and mined txio keys. -/
structure ZcPurgePacketM where
  invalidatedZcKeys : List BinaryData := []
  minedTxioKeys : List (BinaryData × BinaryData) := []
deriving DecidableEq, Repr

/-- The BDV notifications dispatched by scanWallets.  The default switch
branch (any other action type) is the none result of the prelude. -/
inductive BDVNotification where
  | init
  | newBlock (reorgState : ReorganizationStateM)
      (zcPurge : Option ZcPurgePacketM)
  | zc (zcMap : List (BinaryData × Nat)) (newZcKeys : List BinaryData)
      (purge : Option ZcPurgePacketM)
      (leMap : List (BinaryData × LedgerEntryM))
  | refresh (zcMap : List (BinaryData × Nat))
  | other

/-- The viewer state scanWallets touches: the groups, the shared update
id, the last scanned height and the current chain top height. -/
structure BDVStateM where
  groups : List WalletGroupM
  updateID : Nat
  lastScanned : Nat
  topHeight : Nat

/-- The values BlockDataViewer::scanWallets computes in its switch before
the group loops: the scan range, the flags, the saStruct seed and the
ledger-map pointer (set only for zero-conf). -/
structure ScanPrelude where
  startBlock : Nat
  endBlock : Nat
  prevTopBlock : Nat
  reorg : Bool
  refresh : Bool
  sa : SaScanStruct
  leMap : Option (List (BinaryData × LedgerEntryM))
  action : BDVAction
deriving DecidableEq, Repr

/-- The switch of BlockDataViewer::scanWallets.  none embeds the early
returns: a NewBlock without a new top, and the default branch. -/
def scanWalletsPrelude (st : BDVStateM) (n : BDVNotification) :
    Option ScanPrelude :=
  match n with
  | BDVNotification.init =>
    some { startBlock := 0, endBlock := st.topHeight, prevTopBlock := 0,
           reorg := false, refresh := true, sa := {}, leMap := none,
           action := BDVAction.init }
  | BDVNotification.newBlock rs purge =>
    if rs.hasNewTop = false then none
    else
      let startBlock := if rs.prevTopStillValid = false then
          rs.reorgBranchPointHeight
        else rs.prevTopHeight
      let sa : SaScanStruct :=
        match purge with
        | some p => { invalidatedZcKeys := p.invalidatedZcKeys,
                      minedTxioKeys := p.minedTxioKeys }
        | none => {}
      some { startBlock := startBlock, endBlock := rs.newTopHeight,
             prevTopBlock := rs.prevTopHeight + 1,
             reorg := !rs.prevTopStillValid, refresh := false, sa := sa,
             leMap := none, action := BDVAction.newBlock }
  | BDVNotification.zc zcMap newKeys purge leMap0 =>
    let sa : SaScanStruct :=
      { zcMap := zcMap, newZcKeys := newKeys,
        invalidatedZcKeys :=
          match purge with
          | some p => p.invalidatedZcKeys
          | none => [] }
    some { startBlock := st.topHeight, endBlock := st.topHeight,
           prevTopBlock := st.topHeight, reorg := false, refresh := false,
           sa := sa, leMap := some leMap0, action := BDVAction.zc }
  | BDVNotification.refresh zcMap =>
    some { startBlock := U32MAX, endBlock := U32MAX, prevTopBlock := U32MAX,
           reorg := false, refresh := true, sa := { zcMap := zcMap },
           leMap := none, action := BDVAction.refresh }
  | BDVNotification.other => none

/-- The scanData handed to one group scan: the prelude-fixed fields, the
per-group start block and the zero-conf ledgers accumulated so far. -/
def scanDataFor (pre : ScanPrelude) (sb : Nat)
    (zl : List (BinaryData × LedgerEntryM)) : ScanWalletStruct :=
  { prevTopBlockHeight := pre.prevTopBlock, startBlock := sb,
    endBlock := pre.endBlock, action := pre.action, reorg := pre.reorg,
    saStruct := { pre.sa with zcLedgers := zl } }

/-- The accumulator of the second loop of scanWallets. -/
structure ScanLoopAcc where
  groups : List WalletGroupM
  zcLedgers : List (BinaryData × LedgerEntryM)
  leMap : Option (List (BinaryData × LedgerEntryM))
  calls : List ScanWalletStruct

/-- One iteration of the second loop of scanWallets: set the per-group
start block, scan the group, and merge the accumulated zero-conf ledgers
into the notification ledger map when one is attached. -/
def scanLoopStep (pre : ScanPrelude) (uid : Nat) (acc : ScanLoopAcc)
    (gsb : WalletGroupM × Nat) : ScanLoopAcc :=
  let sd := scanDataFor pre gsb.2 acc.zcLedgers
  let res := groupScanWallets gsb.1 sd uid
  { groups := acc.groups ++ [res.1],
    zcLedgers := res.2,
    leMap :=
      match acc.leMap with
      | some m => some (mapInsertList m res.2)
      | none => none,
    calls := acc.calls ++ [sd] }

/-- The observable outcome of one scanWallets call: the scanData handed to
each group, the final zero-conf ledgers of the scanData, and the ledger
map returned through the notification (zero-conf only). -/
structure ScanOutcome where
  groupCalls : List ScanWalletStruct
  zcLedgersOut : List (BinaryData × LedgerEntryM)
  leMapOut : Option (List (BinaryData × LedgerEntryM))

/-- The first loop of scanWallets: page each group (with forcePaging =
refresh) and pick its start block: the bottom of page 0 when paging
reported a change, the notification start block otherwise. -/
def scanPageGroups (pre : ScanPrelude) (groups : List WalletGroupM) :
    List (WalletGroupM × Nat) :=
  groups.map (fun g =>
    match pageHistory g pre.refresh false with
    | (true, g2) => (g2, getPageBottom g2.hist 0)
    | (false, g2) => (g2, pre.startBlock))

/-- BlockDataViewer::scanWallets. -/
def scanWallets (st : BDVStateM) (n : BDVNotification) :
    BDVStateM × ScanOutcome :=
  match scanWalletsPrelude st n with
  | none =>
    (st, { groupCalls := [], zcLedgersOut := [], leMapOut := none })
  | some pre =>
    let paged := scanPageGroups pre st.groups
    let uid := st.updateID + 1
    let final := paged.foldl (scanLoopStep pre uid)
      { groups := [], zcLedgers := pre.sa.zcLedgers, leMap := pre.leMap,
        calls := [] }
    ({ groups := final.groups, updateID := uid,
       lastScanned := pre.endBlock, topHeight := st.topHeight },
     { groupCalls := final.calls, zcLedgersOut := final.zcLedgers,
       leMapOut := final.leMap })

/-- WalletGroup::registerAddresses with the ScrAddrFilter entry point
abstracted as safReg; the deferred registration callback (executed after
the side scan) is outside this model. -/
def groupRegisterAddresses
    (safReg : List BinaryData → BinaryData → Bool → Bool)
    (g : WalletGroupM) (saVec : List BinaryData) (idStr : BinaryData)
    (areNew : Bool) : Bool × WalletGroupM :=
  if saVec = [] then (false, g)
  else
    match lookupAssoc g.wallets idStr with
    | none => (false, g)
    | some w =>
      let saSet := (saVec.filter (fun sa => decide (sa ∉ w.scrAddrs))).dedup
      (safReg saSet idStr areNew, g)

/-- WalletGroup::registerWallet: an empty id short-circuits to true; an
unknown id creates a fresh wallet; then the addresses are registered. -/
def groupRegisterWallet
    (safReg : List BinaryData → BinaryData → Bool → Bool)
    (g : WalletGroupM) (saVec : List BinaryData) (idStr : BinaryData)
    (wltIsNew : Bool) : Bool × WalletGroupM :=
  if idStr = [] then (true, g)
  else
    let g2 :=
      match lookupAssoc g.wallets idStr with
      | some _ => g
      | none => { g with wallets := g.wallets ++ [(idStr, newBtcWallet)] }
    groupRegisterAddresses safReg g2 saVec idStr wltIsNew

/-- BlockDataViewer::registerWallet (groups_[group_wallet], index 0). -/
def registerWallet (safReg : List BinaryData → BinaryData → Bool → Bool)
    (st : BDVStateM) (saVec : List BinaryData) (idStr : BinaryData)
    (wltIsNew : Bool) : Bool × BDVStateM :=
  if idStr = [] then (true, st)
  else
    match st.groups.get? 0 with
    | none => (false, st)
    | some gw =>
      let res := groupRegisterWallet safReg gw saVec idStr wltIsNew
      (res.1, { st with groups := st.groups.set 0 res.2 })

/-- BlockDataViewer::registerLockbox (groups_[group_lockbox], index 1). -/
def registerLockbox (safReg : List BinaryData → BinaryData → Bool → Bool)
    (st : BDVStateM) (saVec : List BinaryData) (idStr : BinaryData)
    (wltIsNew : Bool) : Bool × BDVStateM :=
  if idStr = [] then (true, st)
  else
    match st.groups.get? 1 with
    | none => (false, st)
    | some gl =>
      let res := groupRegisterWallet safReg gl saVec idStr wltIsNew
      (res.1, { st with groups := st.groups.set 1 res.2 })

/-- Big-endian 16-bit decode (READ_UINT16_BE). -/
def readUint16BE (b : List Nat) : Nat :=
  match b with
  | [b0, b1] => 256 * b0 + b1
  | _ => 0

/-- BlockDataViewer::getTxOutCopy(dbKey): the 8-byte key is split into a
6-byte tx key and a big-endian output index; the database fetch itself is
abstracted as db. -/
def getTxOutCopy (db : List Nat → Nat → Option Nat) (dbKey : List Nat) :
    Except String (Option Nat) :=
  if dbKey.length ≠ 8 then Except.error "invalid txout key length"
  else Except.ok (db (dbKey.take 6) (readUint16BE (dbKey.drop 6)))

/-- The wallet search of BlockDataViewer::getLedgerDelegateForScrAddr
across the groups in order. -/
def findWalletInGroups : List WalletGroupM → BinaryData →
    Option BtcWalletM
  | [], _ => none
  | g :: rest, id =>
    match lookupAssoc g.wallets id with
    | some w => some w
    | none => findWalletInGroups rest id

/-- BlockDataViewer::getLedgerDelegateForScrAddr: throws for a wallet id
registered in no group; the delegate construction over the found wallet is
abstracted away. -/
def getLedgerDelegateForScrAddr (groups : List WalletGroupM)
    (wltID _scrAddr : BinaryData) : Except String Unit :=
  match findWalletInGroups groups wltID with
  | none => Except.error "unregistered wallet ID"
  | some _ => Except.ok ()

/-! ## Lemmas about the scan loops -/

theorem mem_mapInsert_left {α β : Type} [DecidableEq α]
    (m : List (α × β)) (kv x : α × β) (hx : x ∈ m) : x ∈ mapInsert m kv := by
  unfold mapInsert
  by_cases h : ∃ p ∈ m, p.1 = kv.1
  · rw [if_pos h]; exact hx
  · rw [if_neg h]; exact List.mem_append_left _ hx

theorem mem_mapInsertList_left {α β : Type} [DecidableEq α]
    (l : List (α × β)) : ∀ (m : List (α × β)) (x : α × β), x ∈ m →
      x ∈ mapInsertList m l := by
  induction l with
  | nil => intro m x hx; exact hx
  | cons a rest ih =>
    intro m x hx
    exact ih (mapInsert m a) x (mem_mapInsert_left m a x hx)

theorem key_mem_mapInsert {α β : Type} [DecidableEq α]
    (m : List (α × β)) (kv : α × β) :
    kv.1 ∈ (mapInsert m kv).map Prod.fst := by
  unfold mapInsert
  by_cases h : ∃ p ∈ m, p.1 = kv.1
  · rw [if_pos h]
    obtain ⟨p, hp, hpk⟩ := h
    exact hpk ▸ List.mem_map_of_mem Prod.fst hp
  · rw [if_neg h]
    simp

theorem key_mem_of_mem {α β : Type} [DecidableEq α]
    (m : List (α × β)) (x : α) (h : x ∈ m.map Prod.fst) :
    ∃ p ∈ m, p.1 = x := by
  obtain ⟨p, hp, hpx⟩ := List.mem_map.mp h
  exact ⟨p, hp, hpx⟩

theorem key_mem_mapInsertList_mono {α β : Type} [DecidableEq α]
    (l : List (α × β)) : ∀ (m : List (α × β)) (x : α),
      x ∈ m.map Prod.fst → x ∈ (mapInsertList m l).map Prod.fst := by
  intro m x hx
  obtain ⟨p, hp, hpx⟩ := key_mem_of_mem m x hx
  exact hpx ▸ List.mem_map_of_mem Prod.fst (mem_mapInsertList_left l m p hp)

theorem key_mem_mapInsertList {α β : Type} [DecidableEq α]
    (l : List (α × β)) : ∀ (m : List (α × β)) (kv : α × β), kv ∈ l →
      kv.1 ∈ (mapInsertList m l).map Prod.fst := by
  induction l with
  | nil => intro m kv h; cases h
  | cons a rest ih =>
    intro m kv h
    rw [mapInsertList, List.foldl_cons]
    cases h with
    | head =>
      exact key_mem_mapInsertList_mono rest (mapInsert m a) a.1
        (key_mem_mapInsert m a)
    | tail _ hmem => exact ih (mapInsert m a) kv hmem

theorem scanLoopStep_calls (pre : ScanPrelude) (uid : Nat)
    (acc : ScanLoopAcc) (gsb : WalletGroupM × Nat) :
    (scanLoopStep pre uid acc gsb).calls =
      acc.calls ++ [scanDataFor pre gsb.2 acc.zcLedgers] := rfl

theorem scanLoop_calls_shape (pre : ScanPrelude) (uid : Nat) :
    ∀ (l : List (WalletGroupM × Nat)) (acc : ScanLoopAcc),
      (∀ c ∈ acc.calls, ∃ sb zl, c = scanDataFor pre sb zl) →
      ∀ c ∈ (l.foldl (scanLoopStep pre uid) acc).calls,
        ∃ sb zl, c = scanDataFor pre sb zl := by
  intro l
  induction l with
  | nil => intro acc hacc c hc; exact hacc c hc
  | cons x rest ih =>
    intro acc hacc
    rw [List.foldl_cons]
    apply ih
    intro c hc
    rw [scanLoopStep_calls] at hc
    rcases List.mem_append.mp hc with hc | hc
    · exact hacc c hc
    · rw [List.mem_singleton.mp hc]
      exact ⟨x.2, acc.zcLedgers, rfl⟩

theorem scanWallets_calls_shape (st : BDVStateM) (n : BDVNotification)
    (pre : ScanPrelude) (hpre : scanWalletsPrelude st n = some pre) :
    ∀ c ∈ ((scanWallets st n).2).groupCalls,
      ∃ sb zl, c = scanDataFor pre sb zl := by
  unfold scanWallets
  rw [hpre]
  exact scanLoop_calls_shape pre (st.updateID + 1) _ _ (by simp)

theorem scanLoop_calls_startBlocks (pre : ScanPrelude) (uid : Nat) :
    ∀ (l : List (WalletGroupM × Nat)) (acc : ScanLoopAcc),
      ((l.foldl (scanLoopStep pre uid) acc).calls).map
          (fun c => c.startBlock) =
        (acc.calls.map fun c => c.startBlock) ++ l.map Prod.snd := by
  intro l
  induction l with
  | nil => intro acc; simp
  | cons x rest ih =>
    intro acc
    rw [List.foldl_cons, ih, scanLoopStep_calls]
    simp [scanDataFor]

/-! ## Claim theorems over the viewer -/

/-- C9: a NewBlock notification whose reorganization state has no new top
makes scanWallets return at once: no group is paged or scanned, the shared
update id is not incremented, and lastScanned_ is unchanged (the whole
viewer state is returned untouched and no group call is recorded). -/
theorem scanWallets_noNewTop_frame (st : BDVStateM)
    (rs : ReorganizationStateM) (purge : Option ZcPurgePacketM)
    (h : rs.hasNewTop = false) :
    scanWallets st (BDVNotification.newBlock rs purge) =
      (st, { groupCalls := [], zcLedgersOut := [], leMapOut := none }) := by
  unfold scanWallets
  simp only [scanWalletsPrelude, h, if_true, ite_true]

/-- A concrete wallet used by the viewer witnesses. -/
def walletW1 : BtcWalletM :=
  { uiFilter := true, isPagedFlag := true, sshSummary := [(100, 5)],
    scrAddrs := [[1]], ledgersForRange := fun _ _ => [([5], 7)],
    scanZcLedgers := fun _ _ => [([6], 8)], validZcKeys := [[9]] }

/-- A concrete group used by the viewer witnesses. -/
def groupW : WalletGroupM :=
  { wallets := [([1], walletW1)],
    hist := { pages := [], currentPage := 0, cachedSummary := none },
    order := HistoryOrdering.descending, wltFilterSet := [[1]],
    validZcSet := [] }

/-- A concrete viewer state used by the viewer witnesses. -/
def bdvW : BDVStateM :=
  { groups := [groupW], updateID := 3, lastScanned := 50, topHeight := 51 }

/-- A reorganization state reporting no new top. -/
def rsNoTopW : ReorganizationStateM :=
  { hasNewTop := false, prevTopStillValid := true, prevTopHeight := 50,
    newTopHeight := 50, reorgBranchPointHeight := 0 }

theorem scanWallets_noNewTop_frame_witness :
    scanWallets bdvW (BDVNotification.newBlock rsNoTopW none) =
      (bdvW, { groupCalls := [], zcLedgersOut := [], leMapOut := none }) :=
  scanWallets_noNewTop_frame bdvW rsNoTopW none rfl

/-- C10: registerWallet and registerLockbox called with an empty wallet-id
return true without creating a wallet, registering an address or touching
any group state; the group-level registerWallet short-circuits the same
way. -/
theorem registerWallet_emptyID
    (safReg : List BinaryData → BinaryData → Bool → Bool)
    (st : BDVStateM) (saVec : List BinaryData) (wltIsNew : Bool)
    (g : WalletGroupM) :
    registerWallet safReg st saVec [] wltIsNew = (true, st) ∧
    registerLockbox safReg st saVec [] wltIsNew = (true, st) ∧
    groupRegisterWallet safReg g saVec [] wltIsNew = (true, g) := by
  refine ⟨?_, ?_, ?_⟩ <;> rfl

/-- C2: for a NewBlock notification with a new top, the scan range is:
endBlock the new top height, prevTopBlock the previous top height plus
one, startBlock the previous top height when the previous top is still
valid and the reorg branch point height (with the reorg flag set) when it
is not; the fields handed to every group scan agree. -/
theorem scanWallets_newBlock_ranges (st : BDVStateM)
    (rs : ReorganizationStateM) (purge : Option ZcPurgePacketM)
    (h : rs.hasNewTop = true) :
    (∃ pre, scanWalletsPrelude st (BDVNotification.newBlock rs purge) =
        some pre ∧
      pre.endBlock = rs.newTopHeight ∧
      pre.prevTopBlock = rs.prevTopHeight + 1 ∧
      pre.reorg = !rs.prevTopStillValid ∧
      pre.startBlock = (if rs.prevTopStillValid = false then
          rs.reorgBranchPointHeight
        else rs.prevTopHeight)) ∧
    (∀ call ∈ ((scanWallets st
        (BDVNotification.newBlock rs purge)).2).groupCalls,
      call.endBlock = rs.newTopHeight ∧
      call.prevTopBlockHeight = rs.prevTopHeight + 1 ∧
      call.reorg = !rs.prevTopStillValid) := by
  have hfalse : ¬ rs.hasNewTop = false := by rw [h]; simp
  have hpre : scanWalletsPrelude st (BDVNotification.newBlock rs purge) =
      some { startBlock := (if rs.prevTopStillValid = false then
                rs.reorgBranchPointHeight else rs.prevTopHeight),
             endBlock := rs.newTopHeight,
             prevTopBlock := rs.prevTopHeight + 1,
             reorg := !rs.prevTopStillValid, refresh := false,
             sa := (match purge with
               | some p => { invalidatedZcKeys := p.invalidatedZcKeys,
                             minedTxioKeys := p.minedTxioKeys }
               | none => {}),
             leMap := none, action := BDVAction.newBlock } := by
    simp only [scanWalletsPrelude]
    rw [if_neg hfalse]
  constructor
  · exact ⟨_, hpre, rfl, rfl, rfl, rfl⟩
  · intro call hcall
    obtain ⟨sb, zl, hshape⟩ :=
      scanWallets_calls_shape st _ _ hpre call hcall
    rw [hshape]
    exact ⟨rfl, rfl, rfl⟩

/-- A reorganization state for the C2 witness: a reorg two blocks deep. -/
def rsReorgW : ReorganizationStateM :=
  { hasNewTop := true, prevTopStillValid := false, prevTopHeight := 50,
    newTopHeight := 52, reorgBranchPointHeight := 48 }

theorem scanWallets_newBlock_ranges_witness :
    (∃ pre, scanWalletsPrelude bdvW (BDVNotification.newBlock rsReorgW none) =
        some pre ∧
      pre.endBlock = rsReorgW.newTopHeight ∧
      pre.prevTopBlock = rsReorgW.prevTopHeight + 1 ∧
      pre.reorg = !rsReorgW.prevTopStillValid ∧
      pre.startBlock = (if rsReorgW.prevTopStillValid = false then
          rsReorgW.reorgBranchPointHeight
        else rsReorgW.prevTopHeight)) ∧
    (∀ call ∈ ((scanWallets bdvW
        (BDVNotification.newBlock rsReorgW none)).2).groupCalls,
      call.endBlock = rsReorgW.newTopHeight ∧
      call.prevTopBlockHeight = rsReorgW.prevTopHeight + 1 ∧
      call.reorg = !rsReorgW.prevTopStillValid) :=
  scanWallets_newBlock_ranges bdvW rsReorgW none rfl

/-- C6 (amended): for every notification that reaches the group loops, the
start block handed to each group scan is the bottom of page 0 whenever
that group's pageHistory call reports a change — unconditionally, whether
or not that bottom is below the notification's start block — and the
notification's start block otherwise. -/
theorem scanWallets_startBlock_from_paging (st : BDVStateM)
    (n : BDVNotification) (pre : ScanPrelude)
    (hpre : scanWalletsPrelude st n = some pre) :
    ((scanWallets st n).2).groupCalls.map (fun c => c.startBlock) =
      (scanPageGroups pre st.groups).map Prod.snd := by
  unfold scanWallets
  rw [hpre]
  rw [scanLoop_calls_startBlocks]
  simp

/-- A reorganization state extending the chain by one block on top of a
previous top at height 50. -/
def rsExtendW : ReorganizationStateM :=
  { hasNewTop := true, prevTopStillValid := true, prevTopHeight := 50,
    newTopHeight := 51, reorgBranchPointHeight := 0 }

/-- C6 counterexample: with a wallet whose whole history sits at height
100, the notification start block is 50 (the previous top), paging reports
a change, and the group is scanned from block 100 — the page-0 bottom —
even though that RAISES the start block.  The code assigns the page bottom
unconditionally instead of lowering only. -/
theorem scanWallets_paging_raises_startBlock :
    (∃ pre, scanWalletsPrelude bdvW
        (BDVNotification.newBlock rsExtendW none) = some pre ∧
      pre.startBlock = 50) ∧
    ((scanWallets bdvW
        (BDVNotification.newBlock rsExtendW none)).2).groupCalls.map
      (fun c => c.startBlock) = [100] := by
  constructor
  · exact ⟨_, rfl, rfl⟩
  · rfl

/-- The prelude values of the C6 witness notification. -/
def preExtendW : ScanPrelude :=
  { startBlock := 50, endBlock := 51, prevTopBlock := 51, reorg := false,
    refresh := false, sa := {}, leMap := none,
    action := BDVAction.newBlock }

theorem scanWallets_startBlock_from_paging_witness :
    ((scanWallets bdvW
        (BDVNotification.newBlock rsExtendW none)).2).groupCalls.map
      (fun c => c.startBlock) =
      (scanPageGroups preExtendW bdvW.groups).map Prod.snd :=
  scanWallets_startBlock_from_paging bdvW
    (BDVNotification.newBlock rsExtendW none) preExtendW rfl

theorem scanLoop_leMap_invariant (pre : ScanPrelude) (uid : Nat)
    (leMap0 : List (BinaryData × LedgerEntryM)) :
    ∀ (l : List (WalletGroupM × Nat)) (acc : ScanLoopAcc),
      (∃ m, acc.leMap = some m ∧ (∀ kv ∈ leMap0, kv ∈ m) ∧
        (∀ kv ∈ acc.zcLedgers, kv.1 ∈ m.map Prod.fst)) →
      ∃ m, (l.foldl (scanLoopStep pre uid) acc).leMap = some m ∧
        (∀ kv ∈ leMap0, kv ∈ m) ∧
        (∀ kv ∈ (l.foldl (scanLoopStep pre uid) acc).zcLedgers,
          kv.1 ∈ m.map Prod.fst) := by
  intro l
  induction l with
  | nil => intro acc h; exact h
  | cons x rest ih =>
    intro acc h
    obtain ⟨m, hle, hmem0, _⟩ := h
    rw [List.foldl_cons]
    apply ih
    refine ⟨mapInsertList m
      (groupScanWallets x.1 (scanDataFor pre x.2 acc.zcLedgers) uid).2,
      ?_, ?_, ?_⟩
    · show (scanLoopStep pre uid acc x).leMap = _
      simp [scanLoopStep, hle]
    · intro kv hkv
      exact mem_mapInsertList_left _ m kv (hmem0 kv hkv)
    · intro kv hkv
      exact key_mem_mapInsertList _ m kv hkv

/-- C7: a zero-conf notification scans with startBlock, endBlock and
prevTopBlock all at the current top height, and after the group scans the
zero-conf ledger entries the groups produced are merged back into the
notification's ledger map: the map is returned, its original entries are
kept, and every produced per-script entry key is present in it. -/
theorem scanWallets_zc_merge (st : BDVStateM)
    (zcMap : List (BinaryData × Nat)) (newKeys : List BinaryData)
    (purge : Option ZcPurgePacketM)
    (leMap0 : List (BinaryData × LedgerEntryM)) :
    (∃ pre, scanWalletsPrelude st
        (BDVNotification.zc zcMap newKeys purge leMap0) = some pre ∧
      pre.startBlock = st.topHeight ∧ pre.endBlock = st.topHeight ∧
      pre.prevTopBlock = st.topHeight ∧ pre.leMap = some leMap0) ∧
    (∀ call ∈ ((scanWallets st
        (BDVNotification.zc zcMap newKeys purge leMap0)).2).groupCalls,
      call.endBlock = st.topHeight ∧
      call.prevTopBlockHeight = st.topHeight) ∧
    (∃ L, ((scanWallets st
        (BDVNotification.zc zcMap newKeys purge leMap0)).2).leMapOut =
          some L ∧
      (∀ kv ∈ leMap0, kv ∈ L) ∧
      (∀ kv ∈ ((scanWallets st
          (BDVNotification.zc zcMap newKeys purge
            leMap0)).2).zcLedgersOut,
        kv.1 ∈ L.map Prod.fst)) := by
  have hpre : scanWalletsPrelude st
      (BDVNotification.zc zcMap newKeys purge leMap0) =
    some { startBlock := st.topHeight, endBlock := st.topHeight,
           prevTopBlock := st.topHeight, reorg := false, refresh := false,
           sa := { zcMap := zcMap, newZcKeys := newKeys,
                   invalidatedZcKeys :=
                     match purge with
                     | some p => p.invalidatedZcKeys
                     | none => [] },
           leMap := some leMap0, action := BDVAction.zc } := rfl
  refine ⟨⟨_, hpre, rfl, rfl, rfl, rfl⟩, ?_, ?_⟩
  · intro call hcall
    obtain ⟨sb, zl, hshape⟩ :=
      scanWallets_calls_shape st _ _ hpre call hcall
    rw [hshape]
    exact ⟨rfl, rfl⟩
  · unfold scanWallets
    rw [hpre]
    exact scanLoop_leMap_invariant _ (st.updateID + 1) leMap0 _ _
      ⟨leMap0, rfl, fun kv hkv => hkv, fun kv hkv => absurd hkv (by simp)⟩

/-- The zero-conf map of the C7 witness notification. -/
def zcMapW : List (BinaryData × Nat) := [([1], 1)]

/-- The new zero-conf keys of the C7 witness notification. -/
def newKeysW : List BinaryData := [[2]]

/-- The initial ledger map of the C7 witness notification. -/
def leMap0W : List (BinaryData × LedgerEntryM) := [([3], 3)]

/-- The prelude values of the C7 witness notification. -/
def preZcW : ScanPrelude :=
  { startBlock := 51, endBlock := 51, prevTopBlock := 51, reorg := false,
    refresh := false,
    sa := { zcMap := zcMapW, newZcKeys := newKeysW },
    leMap := some leMap0W, action := BDVAction.zc }

/-- The single group call produced by the C7 witness run: paging changes
on the witness group, so the start block is its page-0 bottom. -/
def c0W : ScanWalletStruct := scanDataFor preZcW 100 []

theorem scanWallets_zc_merge_witness :
    (c0W.endBlock = bdvW.topHeight ∧
     c0W.prevTopBlockHeight = bdvW.topHeight) ∧
    (∃ L, ((scanWallets bdvW
        (BDVNotification.zc zcMapW newKeysW none leMap0W)).2).leMapOut =
          some L ∧
      (∀ kv ∈ leMap0W, kv ∈ L) ∧
      (∀ kv ∈ ((scanWallets bdvW
          (BDVNotification.zc zcMapW newKeysW none
            leMap0W)).2).zcLedgersOut,
        kv.1 ∈ L.map Prod.fst)) :=
  ⟨(scanWallets_zc_merge bdvW zcMapW newKeysW none leMap0W).2.1 c0W
     (List.mem_singleton.mpr rfl),
   (scanWallets_zc_merge bdvW zcMapW newKeysW none leMap0W).2.2⟩

theorem findWalletInGroups_none (groups : List WalletGroupM)
    (wid : BinaryData)
    (h : ∀ g ∈ groups, lookupAssoc g.wallets wid = none) :
    findWalletInGroups groups wid = none := by
  induction groups with
  | nil => rfl
  | cons g rest ih =>
    rw [findWalletInGroups]
    rw [h g (List.mem_cons_self g rest)]
    exact ih (fun g2 hg2 => h g2 (List.mem_cons_of_mem g hg2))

/-- C8: programmer-contract violations fail fast: getHistoryPage throws a
range error for every pageId at or beyond the page count, getTxOutCopy
throws for every db key whose length is not 8 bytes, and
getLedgerDelegateForScrAddr throws for every wallet id registered in no
group. -/
theorem failFast_contracts :
    (∀ (g : WalletGroupM) (pageId uid : Nat) (r m : Bool),
      getPageCount g.hist ≤ pageId →
      getHistoryPage g pageId uid r m =
        Except.error "pageId out of range") ∧
    (∀ (db : List Nat → Nat → Option Nat) (k : List Nat), k.length ≠ 8 →
      getTxOutCopy db k = Except.error "invalid txout key length") ∧
    (∀ (groups : List WalletGroupM) (wid sa : BinaryData),
      (∀ g ∈ groups, lookupAssoc g.wallets wid = none) →
      getLedgerDelegateForScrAddr groups wid sa =
        Except.error "unregistered wallet ID") := by
  refine ⟨?_, ?_, ?_⟩
  · intro g pageId uid r m h
    unfold getHistoryPage
    rw [if_pos h]
  · intro db k h
    unfold getTxOutCopy
    rw [if_pos h]
  · intro groups wid sa h
    unfold getLedgerDelegateForScrAddr
    rw [findWalletInGroups_none groups wid h]

theorem failFast_contracts_witness :
    getHistoryPage groupW 2 0 false false =
      Except.error "pageId out of range" ∧
    getTxOutCopy (fun _ _ => none) [1, 2, 3] =
      Except.error "invalid txout key length" ∧
    getLedgerDelegateForScrAddr [groupW] [2] [0] =
      Except.error "unregistered wallet ID" :=
  ⟨failFast_contracts.1 groupW 2 0 false false (by decide),
   failFast_contracts.2.1 (fun _ _ => none) [1, 2, 3] (by decide),
   failFast_contracts.2.2 [groupW] [2] [0]
     (by
       intro g hg
       rw [List.mem_singleton] at hg
       subst hg
       rfl)⟩

theorem uiFilterIds_mk (w : List (BinaryData × BtcWalletM))
    (h : HistoryPagerM) (o : HistoryOrdering) (f v : List BinaryData) :
    uiFilterIds { wallets := w, hist := h, order := o, wltFilterSet := f,
                  validZcSet := v } =
      (w.filter (fun kw => kw.2.uiFilter)).map Prod.fst := rfl

/-- C5: getHistoryPage, called without the rebuild flags: when the set of
ui-filtered wallets differs from the one recorded at the previous call,
the supplied update id is replaced by the invalid value, so the page
ledger is rebuilt (and cached under the invalid id) no matter what update
id was supplied; when the filter set is unchanged and the supplied update
id matches the cached one, the cached ledger entries are returned and the
pager cache is left untouched. -/
theorem getHistoryPage_filter_and_cache (g : WalletGroupM)
    (pageId uid : Nat) (page : PageM)
    (hcount : pageId < getPageCount g.hist)
    (hpage : g.hist.pages.get? (internalPageId g pageId) = some page) :
    (uiFilterIds g ≠ g.wltFilterSet →
      getHistoryPage g pageId uid false false =
        Except.ok
          (orderSort g
            ((groupBuildLedgers g page.bottom page.top).map Prod.snd),
           { g with
               wltFilterSet := uiFilterIds g,
               hist := { g.hist with
                 currentPage := internalPageId g pageId,
                 pages := g.hist.pages.set (internalPageId g pageId)
                   ({ page with
                      pageLedgers :=
                        groupBuildLedgers g page.bottom page.top,
                      updateID := U32MAX }) } })) ∧
    (uiFilterIds g = g.wltFilterSet → page.updateID = uid →
      uid ≠ U32MAX →
      getHistoryPage g pageId uid false false =
        Except.ok
          (orderSort g (page.pageLedgers.map Prod.snd),
           { g with hist := { g.hist with
               currentPage := internalPageId g pageId } })) := by
  have hnotle : ¬ getPageCount g.hist ≤ pageId := Nat.not_le.mpr hcount
  have hbool : ¬ ((false || false) = true) := by decide
  constructor
  · intro hne
    have hne2 : (g.wallets.filter (fun kw => kw.2.uiFilter)).map Prod.fst ≠
        g.wltFilterSet := hne
    unfold getHistoryPage
    rw [if_neg hnotle]
    simp only [setCurrentPage, uiFilterIds_mk]
    rw [if_neg hbool, if_neg hbool, if_pos hne2, if_pos hne2]
    unfold getPageLedgerMap
    simp only [hpage]
    rw [if_neg (fun hand => hand.2 rfl)]
    rfl
  · intro heq hupd hneq
    have heq2 : (g.wallets.filter (fun kw => kw.2.uiFilter)).map Prod.fst =
        g.wltFilterSet := heq
    unfold getHistoryPage
    rw [if_neg hnotle]
    simp only [setCurrentPage, uiFilterIds_mk]
    rw [if_neg hbool, if_neg hbool,
        if_neg (fun hn => hn heq2), if_neg (fun hn => hn heq2)]
    unfold getPageLedgerMap
    simp only [hpage]
    rw [if_pos ⟨hupd, hneq⟩]

/-- A concrete wallet for the getHistoryPage witness. -/
def walletC5 : BtcWalletM :=
  { uiFilter := true, isPagedFlag := true, sshSummary := [(10, 1)],
    scrAddrs := [], ledgersForRange := fun _ _ => [([4], 20)],
    scanZcLedgers := fun _ _ => [], validZcKeys := [] }

/-- A concrete cached page for the getHistoryPage witness. -/
def pageC5 : PageM :=
  { bottom := 0, top := 200, pageLedgers := [([2], 11), ([3], 12)],
    updateID := 7 }

/-- A concrete group whose recorded filter set matches its ui filter. -/
def gC5 : WalletGroupM :=
  { wallets := [([1], walletC5)],
    hist := { pages := [pageC5], currentPage := 0,
              cachedSummary := some [(10, 1)] },
    order := HistoryOrdering.descending, wltFilterSet := [[1]],
    validZcSet := [] }

/-- The same group with a stale recorded filter set. -/
def gC5b : WalletGroupM := { gC5 with wltFilterSet := [] }

theorem getHistoryPage_filter_and_cache_witness :
    (getHistoryPage gC5b 0 7 false false =
      Except.ok
        (orderSort gC5b
          ((groupBuildLedgers gC5b pageC5.bottom pageC5.top).map Prod.snd),
         { gC5b with
             wltFilterSet := uiFilterIds gC5b,
             hist := { gC5b.hist with
               currentPage := internalPageId gC5b 0,
               pages := gC5b.hist.pages.set (internalPageId gC5b 0)
                 ({ pageC5 with
                    pageLedgers :=
                      groupBuildLedgers gC5b pageC5.bottom pageC5.top,
                    updateID := U32MAX }) } })) ∧
    (getHistoryPage gC5 0 7 false false =
      Except.ok
        (orderSort gC5 (pageC5.pageLedgers.map Prod.snd),
         { gC5 with hist := { gC5.hist with
             currentPage := internalPageId gC5 0 } })) :=
  ⟨(getHistoryPage_filter_and_cache gC5b 0 7 pageC5 (by decide) rfl).1
     (by decide),
   (getHistoryPage_filter_and_cache gC5 0 7 pageC5 (by decide) rfl).2
     rfl rfl (by decide)⟩

end Armory
